import Mathlib

/-!
Verification of the django-util library against its specification.

The Python source is shallowly embedded: pure string/collection logic is
translated to executable Lean functions, Django ORM side effects are made
explicit (the database as a list of rows, the SQL cursor as a function
returning an Except value), and Python exceptions become Except/Option
results.  Python str values are modelled as Lean String or List Char
(ASCII fragments of Unicode behave identically in both).
-/

/- ===================== choices.py ===================== -/

/-- The static transition table TRANSACTION_STATE_TRANSITIONS of
django_util/choices.py, a Python dict from state to the set of states it
may move to.  The dict is modelled as an association list in its literal
order; each value set is modelled as the list of its elements. -/
def TRANSACTION_STATE_TRANSITIONS : List (String × List String) :=
  [("", ["REQUIRES_PAYMENT_METHOD"]),
   ("REQUIRES_PAYMENT_METHOD", ["REQUIRES_CONFIRMATION", "CANCEL"]),
   ("REQUIRES_CONFIRMATION", ["REQUIRES_ACTION", "PROCESSING", "CANCEL"]),
   ("REQUIRES_ACTION", ["PROCESSING", "CANCEL"]),
   ("PROCESSING", ["SUCCESS", "CANCEL"]),
   ("SUCCESS", []),
   ("CANCEL", [])]

/-- Python dict lookup TRANSACTION_STATE_TRANSITIONS.get(current_state, set()):
the value of the first entry whose key equals the argument, or the empty set. -/
def transitionsGet (current_state : String) : List String :=
  match TRANSACTION_STATE_TRANSITIONS.find? (fun e => e.1 == current_state) with
  | some e => e.2
  | none => []

/-- TransactionStateChoices.can_transition_to from django_util/choices.py:
new_state in TRANSACTION_STATE_TRANSITIONS.get(current_state, set()). -/
def TransactionStateChoices.can_transition_to (current_state new_state : String) : Bool :=
  (transitionsGet current_state).contains new_state

/- ChoicesMixin from django_util/choices.py.  A choice class is determined by
its cls.choices list of (value, label) pairs, so the classmethods are modelled
as functions taking that list as their first argument. -/

/-- ChoicesMixin.get_values: the Python set comprehension over first components,
modelled as the list of its elements (membership-equivalent). -/
def ChoicesMixin.get_values (choices : List (String × String)) : List String :=
  choices.map Prod.fst

/-- ChoicesMixin.get_labels builds a dict value -> label; a Python dict
comprehension keeps the LAST pair for a duplicated key, so the dict (viewed as
the partial lookup function dict.get) returns the label of the last matching
pair, and Option.none for an absent key. -/
def ChoicesMixin.get_labels (choices : List (String × String)) (value : String) :
    Option String :=
  (choices.reverse.find? (fun e => e.1 == value)).map (fun e => e.2)

/-- ChoicesMixin.is_valid: value in cls.get_values(). -/
def ChoicesMixin.is_valid (choices : List (String × String)) (value : String) : Bool :=
  (ChoicesMixin.get_values choices).contains value

/-- ChoicesMixin.get_label: cls.get_labels().get(value). -/
def ChoicesMixin.get_label (choices : List (String × String)) (value : String) :
    Option String :=
  ChoicesMixin.get_labels choices value

/- ===================== truncate_table (command and runscript) ===================== -/

/-- Python repr of a bool as interpolated by an f-string. -/
def pyBoolRepr (b : Bool) : String := if b then "True" else "False"

/-- The single-quote character, used by the error f-strings of both
truncate_table implementations. -/
def singleQuote : String := (Char.ofNat 39).toString

/-- Observable outcome of one run of the management command: the SQL statements
submitted to the cursor, and the lines written to stdout and stderr.  The
handle method returning at all (rather than propagating an exception) is
modelled by its total return type. -/
structure CommandOutcome where
  executed : List String
  stdout : List String
  stderr : List String
deriving DecidableEq

/-- Command.handle of django_util/management/commands/truncate_table.py.
The database cursor is abstracted as cursorExec: it receives the SQL string
and either succeeds or raises an exception carrying a message e. -/
def TruncateTableCommand.handle (table_name : String) ( restart_identity cascade : Bool)
    (cursorExec : String → Except String Unit) : CommandOutcome :=
  let q0 := "TRUNCATE TABLE \"" ++ table_name ++ "\""
  let q1 := if restart_identity then q0 ++ " RESTART IDENTITY" else q0
  let q2 := if cascade then q1 ++ " CASCADE" else q1
  let truncate_query := q2 ++ ";"
  match cursorExec truncate_query with
  | .ok _ =>
    { executed := [truncate_query],
      stdout := ["Successfully truncated table \"" ++ table_name ++
        "\" with options: RESTART IDENTITY=" ++ pyBoolRepr restart_identity ++
        ", CASCADE=" ++ pyBoolRepr cascade ++ "."],
      stderr := [] }
  | .error e =>
    { executed := [truncate_query],
      stdout := [],
      stderr := ["Error truncating table " ++ singleQuote ++ table_name ++ singleQuote ++
        ": " ++ e] }

/-- Observable outcome of the runscript variant: SQL submitted and lines printed. -/
structure ScriptOutcome where
  executed : List String
  printed : List String
deriving DecidableEq

/-- run of django_util/scripts/truncate_table.py.  The option flags are derived
by membership of the literal strings in the whole argument list, exactly as the
source does with the Python `in` operator. -/
def ScriptTruncateTable.run (cursorExec : String → Except String Unit)
    (args : List String) : ScriptOutcome :=
  match args with
  | [] =>
    { executed := [],
      printed := ["Usage: python manage.py runscript truncate_table --script-args table_name [restart_identity] [cascade]"] }
  | table_name :: _ =>
    let restart_identity := args.contains "restart_identity"
    let cascade := args.contains "cascade"
    let q0 := "TRUNCATE TABLE \"" ++ table_name ++ "\""
    let q1 := if restart_identity then q0 ++ " RESTART IDENTITY" else q0
    let q2 := if cascade then q1 ++ " CASCADE" else q1
    let truncate_query := q2 ++ ";"
    match cursorExec truncate_query with
    | .ok _ =>
      { executed := [truncate_query],
        printed := ["Successfully truncated table \"" ++ table_name ++
          "\" with options: RESTART IDENTITY=" ++ pyBoolRepr restart_identity ++
          ", CASCADE=" ++ pyBoolRepr cascade ++ "."] }
    | .error e =>
      { executed := [truncate_query],
        printed := ["Error truncating table " ++ singleQuote ++ table_name ++ singleQuote ++
          ": " ++ e] }

/-- Invocation of the runscript with a given table name and option set, following
the usage line of its docstring: table_name [restart_identity] [cascade]. -/
def encodeScriptArgs (table_name : String) ( restart_identity cascade : Bool) :
    List String :=
  table_name ::
    ((if restart_identity then ["restart_identity"] else []) ++
     (if cascade then ["cascade"] else []))

/- ===================== signals.py ===================== -/

/-- A row of the Profile model (models.py): a one-to-one link to a User,
identified here by the user primary key. -/
structure Profile where
  user : Nat
deriving DecidableEq

/-- create_user_profile of django_util/signals.py, acting on the table of
Profile rows.  Profile.objects.create(user=instance) appends one new row;
instance.profile.save() rewrites the existing row of the user and appends
nothing, and raises RelatedObjectDoesNotExist when the user has no profile
row (modelled as Except.error). -/
def create_user_profile (db : List Profile) (instanceUser : Nat) (created : Bool) :
    Except String (List Profile) :=
  if created then
    .ok (db ++ [{ user := instanceUser }])
  else
    match db.find? (fun p => p.user == instanceUser) with
    | some _ => .ok db
    | none => .error "RelatedObjectDoesNotExist"

/- ===================== fields.py: UpperTextField ===================== -/

/-- The Python values the text field can receive; str() is total on all of them. -/
inductive PyVal where
  | pyNone
  | pyStr (s : String)
  | pyInt (n : Int)
  | pyBool (b : Bool)
deriving DecidableEq

/-- Python str() on the modelled values.  str(None) is the string None. -/
def pyStrOf : PyVal → String
  | .pyNone => "None"
  | .pyStr s => s
  | .pyInt n => toString n
  | .pyBool b => if b then "True" else "False"

/-- The ASCII whitespace characters removed by Python str.strip(). -/
def isPySpace (c : Char) : Bool :=
  c = ' ' || c = '\t' || c = '\n' || c = '\x0b' || c = '\x0c' || c = '\r'

/-- Python str.strip() (restricted to ASCII whitespace). -/
def pyStrip (s : String) : String :=
  (((s.toList.dropWhile isPySpace).reverse.dropWhile isPySpace).reverse).asString

/-- Python str.upper() (ASCII case mapping, which agrees with Python on ASCII). -/
def pyUpper (s : String) : String :=
  (s.toList.map Char.toUpper).asString

/-- UpperTextField.get_prep_value of django_util/fields.py:
str(value).strip().upper() under a try/except (TypeError, AttributeError)
returning None.  str() succeeds on every modelled value, so the except branch
is unreachable and the result is always some string. -/
def UpperTextField.get_prep_value (value : PyVal) : Option String :=
  some (pyUpper (pyStrip (pyStrOf value)))

/- ===================== models.py: progress percentages ===================== -/

/-- Floor of a rational, computed from the normalized numerator and denominator. -/
def ratFloor (q : ℚ) : ℤ := Int.fdiv q.num q.den

/-- Round to the nearest integer with ties to even, the rounding used by Python
round().  Python floats are modelled as exact rationals. -/
def roundHalfEven (x : ℚ) : ℤ :=
  let n := ratFloor x
  let fr := x - n
  if fr < 1/2 then n
  else if 1/2 < fr then n + 1
  else if Even n then n else n + 1

/-- Python round(x, 2). -/
def pyRound2 (x : ℚ) : ℚ := (roundHalfEven (x * 100) : ℚ) / 100

/-- Python true division, raising ZeroDivisionError (modelled as none) on a
zero divisor. -/
def pyTrueDiv (a b : ℚ) : Option ℚ :=
  if b = 0 then none else some (a / b)

/-- DataImportProgress.get_progress_percentage of django_util/models.py:
if self.total_rows == 0: return 0.0 else round((processed_rows / total_rows) * 100, 2).
A result of none would model an uncaught ZeroDivisionError. -/
def DataImportProgress.get_progress_percentage (processed_rows total_rows : ℕ) :
    Option ℚ :=
  if total_rows = 0 then some 0
  else (pyTrueDiv (processed_rows : ℚ) (total_rows : ℚ)).map (fun q => pyRound2 (q * 100))

/-- DataExtractProgress.get_progress_percentage of django_util/models.py, the
same computation over completed_requests / total_requests. -/
def DataExtractProgress.get_progress_percentage (completed_requests total_requests : ℕ) :
    Option ℚ :=
  if total_requests = 0 then some 0
  else (pyTrueDiv (completed_requests : ℚ) (total_requests : ℚ)).map (fun q => pyRound2 (q * 100))

/- ===================== urllib.parse (CPython 3.11), used by fields.py ===================== -/

/- NoParamURLField delegates to urllib.parse.urlparse.  The parser below is
translated from CPython 3.11 urllib/parse.py (urlsplit, _splitnetloc,
_splitparams, urlparse), on List Char.  The _checknetloc NFKC check, which can
only raise for non-ASCII network locations, is modelled as a no-op; all
concrete inputs used below are ASCII. -/

/-- urlsplit first strips leading C0 control characters and spaces from the URL
(url.lstrip of _WHATWG_C0_CONTROL_OR_SPACE, the characters up to \x20). -/
def lstripControlOrSpace (l : List Char) : List Char :=
  l.dropWhile (fun c => c.toNat ≤ 32)

/-- urlsplit then removes every tab, carriage return and newline from the URL
(the _UNSAFE_URL_BYTES_TO_REMOVE loop). -/
def removeTabCrNl (l : List Char) : List Char :=
  l.filter (fun c => !(c = '\t' || c = '\r' || c = '\n'))

/-- Python s.split(sep, 1): the part before the first occurrence of the
character and the part after it (callers below only use it when the character
occurs). -/
def splitAtFirst (c : Char) : List Char → List Char × List Char
  | [] => ([], [])
  | a :: rest =>
    if a = c then ([], rest)
    else
      ((splitAtFirst c rest).1.cons a, (splitAtFirst c rest).2)

/-- The characters admitted in a URL scheme (scheme_chars of urllib.parse). -/
def scheme_chars : List Char :=
  "abcdefghijklmnopqrstuvwxyzABCDEFGHIJKLMNOPQRSTUVWXYZ0123456789+-.".toList

/-- Python url[0].isascii() and url[0].isalpha(), i.e. an ASCII letter. -/
def isAsciiAlpha (c : Char) : Bool :=
  ('a' ≤ c && c ≤ 'z') || ('A' ≤ c && c ≤ 'Z')

/-- Python str.lower() on the scheme (whose characters are ASCII). -/
def pyLower (l : List Char) : List Char := l.map Char.toLower

/-- The scheme phase of urlsplit: i = url.find of the colon; when i > 0, the
first character is an ASCII letter and url[:i] holds only scheme characters,
the scheme is url[:i].lower() and the rest is url[i+1:]; in every other case
the scheme stays empty and the URL is unchanged. -/
def urlsplitScheme (url : List Char) : List Char × List Char :=
  if ':' ∈ url then
    let before := (splitAtFirst ':' url).1
    if before ≠ [] ∧ isAsciiAlpha (before.headD ' ') = true ∧
        before.all (fun c => scheme_chars.contains c) = true then
      (pyLower before, (splitAtFirst ':' url).2)
    else ([], url)
  else ([], url)

/-- Scan of _splitnetloc from the given start: the segment before the earliest
of the three delimiters, and the remainder beginning at that delimiter. -/
def splitnetlocAux : List Char → List Char × List Char
  | [] => ([], [])
  | a :: rest =>
    if a = '/' ∨ a = '?' ∨ a = '#' then ([], a :: rest)
    else ((splitnetlocAux rest).1.cons a, (splitnetlocAux rest).2)

/-- _splitnetloc(url, 2): (url[2:delim], url[delim:]) where delim is the
earliest position at or after 2 of a slash, question mark or hash. -/
def splitnetloc2 (url : List Char) : List Char × List Char :=
  splitnetlocAux (url.drop 2)

/-- The netloc phase of urlsplit: entered when url[:2] is two slashes; raises
ValueError "Invalid IPv6 URL" when the netloc holds an unmatched bracket. -/
def netlocStep (url2 : List Char) : Except String (List Char × List Char) :=
  if url2.take 2 = ['/', '/'] then
    let nr := splitnetloc2 url2
    if ('[' ∈ nr.1 ∧ ']' ∉ nr.1) ∨ (']' ∈ nr.1 ∧ '[' ∉ nr.1) then
      .error "Invalid IPv6 URL"
    else .ok nr
  else .ok ([], url2)

/-- The fragment phase of urlsplit: url.split at the first hash when present. -/
def fragmentStep (url : List Char) : List Char × List Char :=
  if '#' ∈ url then splitAtFirst '#' url else (url, [])

/-- The query phase of urlsplit: url.split at the first question mark when present. -/
def queryStep (url : List Char) : List Char × List Char :=
  if '?' ∈ url then splitAtFirst '?' url else (url, [])

/-- Result of urlsplit (SplitResult of urllib.parse). -/
structure SplitResult where
  scheme : List Char
  netloc : List Char
  path : List Char
  query : List Char
  fragment : List Char
deriving DecidableEq

/-- urlsplit of urllib.parse (default scheme argument, allow_fragments=True),
as the composition of its phases; an Except.error models a raised ValueError. -/
def urlsplit (url0 : List Char) : Except String SplitResult :=
  let url1 := removeTabCrNl (lstripControlOrSpace url0)
  let su := urlsplitScheme url1
  match netlocStep su.2 with
  | .error e => .error e
  | .ok nl =>
    let uf := fragmentStep nl.2
    let uq := queryStep uf.1
    .ok ⟨su.1, nl.1, uq.1, uq.2, uf.2⟩

/-- The schemes for which urlparse separates parameters (uses_params of
urllib.parse in CPython 3.11). -/
def uses_params : List (List Char) :=
  [[], "ftp".toList, "hdl".toList, "prospero".toList, "http".toList,
   "imap".toList, "https".toList, "shttp".toList, "rtsp".toList,
   "rtspu".toList, "sip".toList, "sips".toList, "mms".toList,
   "sftp".toList, "tel".toList]

/-- _splitparams: when the path holds a slash, split at the first semicolon at
or after the last slash (returning the path unchanged when there is none);
otherwise split at the first semicolon. -/
def splitparams (url : List Char) : List Char × List Char :=
  if '/' ∈ url then
    let ra := splitAtFirst '/' url.reverse
    let a := ra.2.reverse
    let b := ra.1.reverse
    if ';' ∈ b then
      (a ++ '/' :: (splitAtFirst ';' b).1, (splitAtFirst ';' b).2)
    else (url, [])
  else
    if ';' ∈ url then splitAtFirst ';' url else (url, [])

/-- Result of urlparse (ParseResult of urllib.parse). -/
structure ParseResult where
  scheme : List Char
  netloc : List Char
  path : List Char
  params : List Char
  query : List Char
  fragment : List Char
deriving DecidableEq

/-- urlparse of urllib.parse: urlsplit, then parameter separation when the
scheme uses parameters and the path holds a semicolon. -/
def urlparse (url : List Char) : Except String ParseResult :=
  match urlsplit url with
  | .error e => .error e
  | .ok r =>
    if r.scheme ∈ uses_params ∧ ';' ∈ r.path then
      (fun sp => .ok ⟨r.scheme, r.netloc, sp.1, sp.2, r.query, r.fragment⟩)
        (splitparams r.path)
    else
      .ok ⟨r.scheme, r.netloc, r.path, [], r.query, r.fragment⟩

/- ===================== fields.py: NoParamURLField ===================== -/

/-- NoParamURLField.get_prep_value of django_util/fields.py:
parsed = urlparse(value); return parsed.netloc + parsed.path, with a broad
try/except returning None when urlparse raises. -/
def NoParamURLField.get_prep_value (value : List Char) : Option (List Char) :=
  match urlparse value with
  | .ok parsed => some (parsed.netloc ++ parsed.path)
  | .error _ => none

/-- Exceptions observable from NoParamURLField.validate. -/
inductive FieldError where
  | validationError (msg : String)
  | valueError (msg : String)
deriving DecidableEq

/-- NoParamURLField.validate of django_util/fields.py.  The Python condition
`value and not (urlparse(value).netloc and urlparse(value).path)` raises
ValidationError; otherwise the parent validate runs, whose outcome is
abstracted as the superValidate argument.  A ValueError raised by urlparse
inside the condition propagates.  A falsy value (the empty string) skips the
condition by short-circuit. -/
def NoParamURLField.validate (value : List Char)
    (superValidate : Except FieldError Unit) : Except FieldError Unit :=
  if value ≠ [] then
    match urlparse value with
    | .error e => .error (.valueError e)
    | .ok parsed =>
      if parsed.netloc = [] ∨ parsed.path = [] then
        .error (.validationError "URL must contain both domain and path")
      else superValidate
  else superValidate

deriving instance DecidableEq for Except

/- ===================== helper lemmas ===================== -/

lemma can_transition_of_get {k : String} {v : List String} (hv : transitionsGet k = v)
    {n : String} (hm : n ∈ v) : TransactionStateChoices.can_transition_to k n = true := by
  unfold TransactionStateChoices.can_transition_to
  rw [hv]
  exact List.elem_iff.mpr hm

lemma handle_executed (t : String) (ri c : Bool) (exec : String → Except String Unit) :
    (TruncateTableCommand.handle t ri c exec).executed =
      ["TRUNCATE TABLE \"" ++ t ++ "\"" ++
        (if ri then " RESTART IDENTITY" else "") ++
        (if c then " CASCADE" else "") ++ ";"] := by
  cases ri <;> cases c <;>
    simp only [TruncateTableCommand.handle, if_true, if_false, Bool.false_eq_true,
      ite_true, ite_false, String.append_empty] <;>
    split <;> simp [String.append_assoc]

lemma run_executed (exec : String → Except String Unit) (t : String) (L : List String) :
    (ScriptTruncateTable.run exec (t :: L)).executed =
      ["TRUNCATE TABLE \"" ++ t ++ "\"" ++
        (if (t :: L).contains "restart_identity" then " RESTART IDENTITY" else "") ++
        (if (t :: L).contains "cascade" then " CASCADE" else "") ++ ";"] := by
  unfold ScriptTruncateTable.run
  cases hri : (t :: L).contains "restart_identity" <;>
    cases hc : (t :: L).contains "cascade" <;>
      simp only [hri, hc, if_true, if_false, ite_true, ite_false, Bool.false_eq_true,
        String.append_empty] <;>
      split <;> simp [String.append_assoc]

lemma contains_cons_of_ne {a t : String} {L : List String} (h : a ≠ t) :
    (t :: L).contains a = L.contains a := by
  show List.elem a (t :: L) = List.elem a L
  rw [List.elem_cons, beq_eq_false_iff_ne.mpr h]
lemma lstrip_append (u rest : List Char) (hu : ∀ c ∈ u, 32 < c.toNat) :
    lstripControlOrSpace (u ++ '?' :: rest) = u ++ '?' :: rest := by
  cases u with
  | nil =>
    simp only [List.nil_append, lstripControlOrSpace, List.dropWhile_cons]
    simp
  | cons a t =>
    have ha : ¬ (a.toNat ≤ 32) := by have := hu a (by simp); omega
    simp only [List.cons_append, lstripControlOrSpace, List.dropWhile_cons]
    simp [ha]

lemma lstrip_self (u : List Char) (hu : ∀ c ∈ u, 32 < c.toNat) :
    lstripControlOrSpace u = u := by
  cases u with
  | nil => rfl
  | cons a t =>
    have ha : ¬ (a.toNat ≤ 32) := by have := hu a (by simp); omega
    simp only [lstripControlOrSpace, List.dropWhile_cons]
    simp [ha]

lemma removeTabCrNl_eq_self (l : List Char)
    (h : ∀ c ∈ l, c ≠ '\t' ∧ c ≠ '\r' ∧ c ≠ '\n') : removeTabCrNl l = l := by
  refine List.filter_eq_self.mpr (fun a ha => ?_)
  obtain ⟨h1, h2, h3⟩ := h a ha
  simp [h1, h2, h3]

lemma splitAtFirst_append_cons (c : Char) (l₁ l₂ : List Char) (h : c ∉ l₁) :
    splitAtFirst c (l₁ ++ c :: l₂) = (l₁, l₂) := by
  induction l₁ with
  | nil => simp [splitAtFirst]
  | cons a t ih =>
    have ha : a ≠ c := by rintro rfl; exact h (by simp)
    have ht : c ∉ t := fun hm => h (by simp [hm])
    simp [splitAtFirst, ha, ih ht]

lemma exists_first_split (c : Char) (l : List Char) (h : c ∈ l) :
    ∃ a b, l = a ++ c :: b ∧ c ∉ a := by
  induction l with
  | nil => cases h
  | cons x t ih =>
    by_cases hx : x = c
    · exact ⟨[], t, by rw [hx]; rfl, by simp⟩
    · have hct : c ∈ t := by
        rcases List.mem_cons.mp h with h1 | h1
        · exact absurd h1.symm hx
        · exact h1
      obtain ⟨a, b, rfl, hna⟩ := ih hct
      refine ⟨x :: a, b, rfl, ?_⟩
      intro hm
      rcases List.mem_cons.mp hm with h1 | h1
      · exact hx h1.symm
      · exact hna h1

lemma splitAtFirst_snd_sub (c : Char) :
    ∀ (l : List Char) (x : Char), x ∈ (splitAtFirst c l).2 → x ∈ l := by
  intro l
  induction l with
  | nil => intro x hx; simp [splitAtFirst] at hx
  | cons a t ih =>
    intro x hx
    by_cases ha : a = c
    · rw [show splitAtFirst c (a :: t) = ([], t) from by simp [splitAtFirst, ha]] at hx
      exact List.mem_cons_of_mem a hx
    · rw [show splitAtFirst c (a :: t) =
          ((splitAtFirst c t).1.cons a, (splitAtFirst c t).2) from by
        simp [splitAtFirst, ha]] at hx
      exact List.mem_cons_of_mem a (ih x hx)

lemma splitnetlocAux_append (t rest : List Char) :
    splitnetlocAux (t ++ '?' :: rest) =
      ((splitnetlocAux t).1, (splitnetlocAux t).2 ++ '?' :: rest) := by
  induction t with
  | nil => simp [splitnetlocAux]
  | cons a s ih =>
    by_cases ha : a = '/' ∨ a = '?' ∨ a = '#'
    · simp [splitnetlocAux, ha]
    · simp [splitnetlocAux, ha, ih]

lemma splitnetlocAux_snd_sub :
    ∀ (t : List Char) (x : Char), x ∈ (splitnetlocAux t).2 → x ∈ t := by
  intro t
  induction t with
  | nil => intro x hx; simp [splitnetlocAux] at hx
  | cons a s ih =>
    intro x hx
    by_cases ha : a = '/' ∨ a = '?' ∨ a = '#'
    · rw [show splitnetlocAux (a :: s) = ([], a :: s) from by simp [splitnetlocAux, ha]] at hx
      exact hx
    · rw [show splitnetlocAux (a :: s) =
          ((splitnetlocAux s).1.cons a, (splitnetlocAux s).2) from by
        simp [splitnetlocAux, ha]] at hx
      exact List.mem_cons_of_mem a (ih x hx)
lemma urlsplitScheme_append (u rest : List Char) (h3 : '?' ∉ u) :
    urlsplitScheme (u ++ '?' :: rest) =
      ((urlsplitScheme u).1, (urlsplitScheme u).2 ++ '?' :: rest) := by
  by_cases hc : ':' ∈ u
  · obtain ⟨a, b, rfl, hna⟩ := exists_first_split ':' u hc
    have hE : (a ++ ':' :: b) ++ '?' :: rest = a ++ ':' :: (b ++ '?' :: rest) := by simp
    have hmE : ':' ∈ (a ++ ':' :: b) ++ '?' :: rest := by simp
    have hspu : splitAtFirst ':' (a ++ ':' :: b) = (a, b) :=
      splitAtFirst_append_cons ':' a b hna
    have hspE : splitAtFirst ':' ((a ++ ':' :: b) ++ '?' :: rest) = (a, b ++ '?' :: rest) := by
      rw [hE]
      exact splitAtFirst_append_cons ':' a (b ++ '?' :: rest) hna
    simp only [urlsplitScheme, hspu, hspE, hc, hmE, if_true, ite_true]
    by_cases hcond : a ≠ [] ∧ isAsciiAlpha (a.headD ' ') = true ∧
        a.all (fun c => scheme_chars.contains c) = true
    · rw [if_pos hcond, if_pos hcond]
    · rw [if_neg hcond, if_neg hcond]
  · have hu_eq : urlsplitScheme u = ([], u) := by
      unfold urlsplitScheme
      rw [if_neg hc]
    rw [hu_eq]
    by_cases hcE : ':' ∈ u ++ '?' :: rest
    · have hcr : ':' ∈ rest := by
        rcases List.mem_append.mp hcE with h | h
        · exact absurd h hc
        · rcases List.mem_cons.mp h with h | h
          · exact absurd h (by decide)
          · exact h
      obtain ⟨r₁, r₂, hre, hnr⟩ := exists_first_split ':' rest hcr
      have hEe : u ++ '?' :: rest = (u ++ '?' :: r₁) ++ ':' :: r₂ := by
        rw [hre]
        simp
      have hnotin : ':' ∉ u ++ '?' :: r₁ := by
        intro hm
        rcases List.mem_append.mp hm with h | h
        · exact hc h
        · rcases List.mem_cons.mp h with h | h
          · exact absurd h (by decide)
          · exact hnr h
      have hsp : splitAtFirst ':' (u ++ '?' :: rest) = (u ++ '?' :: r₁, r₂) := by
        rw [hEe]
        exact splitAtFirst_append_cons ':' (u ++ '?' :: r₁) r₂ hnotin
      have hqmem : '?' ∈ u ++ '?' :: r₁ := by simp
      simp only [urlsplitScheme, hcE, if_true, ite_true, hsp]
      rw [if_neg ?hng]
      case hng =>
        rintro ⟨-, -, hall⟩
        have := List.all_eq_true.mp hall '?' hqmem
        exact absurd this (by decide)
    · unfold urlsplitScheme
      rw [if_neg hcE]
lemma urlsplitScheme_snd_sub (url : List Char) : ∀ x ∈ (urlsplitScheme url).2, x ∈ url := by
  intro x hx
  simp only [urlsplitScheme] at hx
  split at hx
  · split at hx
    · exact splitAtFirst_snd_sub ':' url x hx
    · exact hx
  · exact hx

lemma netlocStep_append (v rest : List Char) :
    netlocStep (v ++ '?' :: rest) =
      (netlocStep v).map (fun nr => (nr.1, nr.2 ++ '?' :: rest)) := by
  match v with
  | [] => simp [netlocStep, Except.map]
  | [a] => simp [netlocStep, Except.map]
  | a :: b :: t =>
    by_cases hab : a = '/' ∧ b = '/'
    · obtain ⟨rfl, rfl⟩ := hab
      have hdrop : ((('/' :: '/' :: t) ++ '?' :: rest).drop 2) = t ++ '?' :: rest := by simp
      simp only [netlocStep, List.cons_append, List.take_succ_cons, List.take_zero]
      simp only [splitnetloc2, List.drop_succ_cons, List.drop_zero]
      rw [splitnetlocAux_append]
      by_cases hbr : ('[' ∈ (splitnetlocAux t).1 ∧ ']' ∉ (splitnetlocAux t).1) ∨
          (']' ∈ (splitnetlocAux t).1 ∧ '[' ∉ (splitnetlocAux t).1)
      · simp [hbr, Except.map]
      · simp [hbr, Except.map]
    · have hne : ¬ ([a, b] : List Char) = ['/', '/'] := by
        intro hh
        apply hab
        constructor
        · exact (List.cons_eq_cons.mp hh).1
        · exact (List.cons_eq_cons.mp (List.cons_eq_cons.mp hh).2).1
      simp only [netlocStep, List.cons_append, List.take_succ_cons, List.take_zero]
      rw [if_neg hne, if_neg hne]
      simp [Except.map]

lemma netlocStep_snd_sub (v : List Char) (nr : List Char × List Char)
    (h : netlocStep v = .ok nr) : ∀ x ∈ nr.2, x ∈ v := by
  intro x hx
  simp only [netlocStep] at h
  split at h
  · split at h
    · cases h
    · cases h
      exact List.mem_of_mem_drop (splitnetlocAux_snd_sub _ x hx)
  · cases h
    exact hx

lemma fragmentStep_of_not_mem (w : List Char) (h : '#' ∉ w) :
    fragmentStep w = (w, []) := by
  unfold fragmentStep
  rw [if_neg h]

lemma fragmentStep_append (w q f : List Char) (hw : '#' ∉ w) (hq : '#' ∉ q) :
    fragmentStep (w ++ '?' :: (q ++ '#' :: f)) = (w ++ '?' :: q, f) := by
  have hm : '#' ∈ w ++ '?' :: (q ++ '#' :: f) := by simp
  have hne : '#' ∉ w ++ '?' :: q := by
    intro h
    rcases List.mem_append.mp h with h | h
    · exact hw h
    · rcases List.mem_cons.mp h with h | h
      · exact absurd h (by decide)
      · exact hq h
  have he : w ++ '?' :: (q ++ '#' :: f) = (w ++ '?' :: q) ++ '#' :: f := by simp
  unfold fragmentStep
  rw [if_pos hm, he]
  exact splitAtFirst_append_cons '#' (w ++ '?' :: q) f hne

lemma queryStep_of_not_mem (w : List Char) (h : '?' ∉ w) :
    queryStep w = (w, []) := by
  unfold queryStep
  rw [if_neg h]

lemma queryStep_append (w q : List Char) (hw : '?' ∉ w) :
    queryStep (w ++ '?' :: q) = (w, q) := by
  have hm : '?' ∈ w ++ '?' :: q := by simp
  unfold queryStep
  rw [if_pos hm]
  exact splitAtFirst_append_cons '?' w q hw
lemma urlsplit_append (u q f : List Char)
    (hu : ∀ c ∈ u, 32 < c.toNat)
    (hq : ∀ c ∈ q, c ≠ '\t' ∧ c ≠ '\r' ∧ c ≠ '\n')
    (hf : ∀ c ∈ f, c ≠ '\t' ∧ c ≠ '\r' ∧ c ≠ '\n')
    (h2 : '#' ∉ u) (h3 : '?' ∉ u) (h4 : '#' ∉ q) :
    urlsplit (u ++ '?' :: (q ++ '#' :: f)) =
      (urlsplit u).map (fun r => { r with query := q, fragment := f }) := by
  have hu3 : ∀ c ∈ u, c ≠ '\t' ∧ c ≠ '\r' ∧ c ≠ '\n' := by
    intro c hc
    have hcn := hu c hc
    refine ⟨?_, ?_, ?_⟩ <;> rintro rfl <;> exact absurd hcn (by decide)
  have l1E : lstripControlOrSpace (u ++ '?' :: (q ++ '#' :: f)) =
      u ++ '?' :: (q ++ '#' :: f) := lstrip_append u (q ++ '#' :: f) hu
  have l1u : lstripControlOrSpace u = u := lstrip_self u hu
  have l2E : removeTabCrNl (u ++ '?' :: (q ++ '#' :: f)) = u ++ '?' :: (q ++ '#' :: f) := by
    refine removeTabCrNl_eq_self _ ?_
    intro c hc
    rcases List.mem_append.mp hc with h | h
    · exact hu3 c h
    · rcases List.mem_cons.mp h with rfl | h
      · exact (by decide)
      · rcases List.mem_append.mp h with h | h
        · exact hq c h
        · rcases List.mem_cons.mp h with rfl | h
          · exact (by decide)
          · exact hf c h
  have l2u : removeTabCrNl u = u := removeTabCrNl_eq_self u hu3
  have hsch := urlsplitScheme_append u (q ++ '#' :: f) h3
  have hU2 : ∀ x ∈ (urlsplitScheme u).2, x ∈ u := urlsplitScheme_snd_sub u
  have h2u : '#' ∉ (urlsplitScheme u).2 := fun hm => h2 (hU2 _ hm)
  have h3u : '?' ∉ (urlsplitScheme u).2 := fun hm => h3 (hU2 _ hm)
  have hnet := netlocStep_append (urlsplitScheme u).2 (q ++ '#' :: f)
  simp only [urlsplit, l1E, l1u, l2E, l2u, hsch, hnet]
  cases hns : netlocStep (urlsplitScheme u).2 with
  | error e => simp [Except.map]
  | ok nr =>
    have hsub : ∀ x ∈ nr.2, x ∈ (urlsplitScheme u).2 := netlocStep_snd_sub _ nr hns
    have hw2 : '#' ∉ nr.2 := fun hm => h2u (hsub _ hm)
    have hw3 : '?' ∉ nr.2 := fun hm => h3u (hsub _ hm)
    simp only [Except.map]
    rw [fragmentStep_append nr.2 q f hw2 h4, fragmentStep_of_not_mem nr.2 hw2]
    rw [queryStep_append nr.2 q hw3, queryStep_of_not_mem nr.2 hw3]

lemma urlparse_append (u q f : List Char)
    (hu : ∀ c ∈ u, 32 < c.toNat)
    (hq : ∀ c ∈ q, c ≠ '\t' ∧ c ≠ '\r' ∧ c ≠ '\n')
    (hf : ∀ c ∈ f, c ≠ '\t' ∧ c ≠ '\r' ∧ c ≠ '\n')
    (h2 : '#' ∉ u) (h3 : '?' ∉ u) (h4 : '#' ∉ q) :
    urlparse (u ++ '?' :: (q ++ '#' :: f)) =
      (urlparse u).map (fun r => { r with query := q, fragment := f }) := by
  unfold urlparse
  rw [urlsplit_append u q f hu hq hf h2 h3 h4]
  cases hs : urlsplit u with
  | error e => simp [Except.map]
  | ok r =>
    simp only [Except.map]
    by_cases hg : r.scheme ∈ uses_params ∧ ';' ∈ r.path
    · rw [if_pos hg, if_pos hg]
    · rw [if_neg hg, if_neg hg]


/- ===================== claims ===================== -/

/-- C1: can_transition_to returns true exactly when new_state belongs to the
set the static table associates with current_state; a current_state that is
not a key allows no transition, and the terminal states SUCCESS and CANCEL
allow no transition out. -/
theorem transaction_transition_table (cur nxt : String) :
    (TransactionStateChoices.can_transition_to cur nxt = true ↔
      ∃ e ∈ TRANSACTION_STATE_TRANSITIONS, e.1 = cur ∧ nxt ∈ e.2) ∧
    ((∀ e ∈ TRANSACTION_STATE_TRANSITIONS, e.1 ≠ cur) →
      TransactionStateChoices.can_transition_to cur nxt = false) ∧
    TransactionStateChoices.can_transition_to "SUCCESS" nxt = false ∧
    TransactionStateChoices.can_transition_to "CANCEL" nxt = false := by
  refine ⟨⟨?_, ?_⟩, ?_, ?_, ?_⟩
  · intro h
    unfold TransactionStateChoices.can_transition_to transitionsGet at h
    cases hf : TRANSACTION_STATE_TRANSITIONS.find? (fun e => e.1 == cur) with
    | some e =>
      rw [hf] at h
      exact ⟨e, List.mem_of_find?_eq_some hf,
        by simpa [beq_iff_eq] using List.find?_some hf, List.elem_iff.mp h⟩
    | none => rw [hf] at h; cases h
  · rintro ⟨e, he, hkey, hmem⟩
    subst hkey
    fin_cases he <;>
      first
        | exact absurd hmem (List.not_mem_nil _)
        | exact can_transition_of_get (by decide) hmem
  · intro hk
    unfold TransactionStateChoices.can_transition_to transitionsGet
    rw [List.find?_eq_none.mpr (fun e he => by simpa [beq_iff_eq] using hk e he)]
    rfl
  · rw [show TransactionStateChoices.can_transition_to "SUCCESS" nxt =
      (transitionsGet "SUCCESS").contains nxt from rfl,
      show transitionsGet "SUCCESS" = [] from by decide]
    rfl
  · rw [show TransactionStateChoices.can_transition_to "CANCEL" nxt =
      (transitionsGet "CANCEL").contains nxt from rfl,
      show transitionsGet "CANCEL" = [] from by decide]
    rfl

/-- Witness for C1 at the non-key state NOT_A_STATE. -/
theorem transaction_transition_witness :
    (∀ e ∈ TRANSACTION_STATE_TRANSITIONS, e.1 ≠ "NOT_A_STATE") ∧
    TransactionStateChoices.can_transition_to "NOT_A_STATE" "SUCCESS" = false :=
  ⟨by decide, (transaction_transition_table "NOT_A_STATE" "SUCCESS").2.1 (by decide)⟩

/-- C2 (amended): get_prep_value strips the query and fragment, in the sense
that appending a question mark, a query, a hash and a fragment to a URL does
not change the result; the counterexample below shows the remaining
components are NOT left unchanged, since the scheme is dropped as well. -/
theorem noParamURLField_strips_query_fragment :
    ∀ (u q f : List Char),
      (∀ c ∈ u, 32 < c.toNat) →
      (∀ c ∈ q, c ≠ '\t' ∧ c ≠ '\r' ∧ c ≠ '\n') →
      (∀ c ∈ f, c ≠ '\t' ∧ c ≠ '\r' ∧ c ≠ '\n') →
      '#' ∉ u → '?' ∉ u → '#' ∉ q →
      NoParamURLField.get_prep_value (u ++ '?' :: (q ++ '#' :: f)) =
        NoParamURLField.get_prep_value u := by
  intro u q f hu hq hf h2 h3 h4
  unfold NoParamURLField.get_prep_value
  rw [urlparse_append u q f hu hq hf h2 h3 h4]
  cases urlparse u with
  | error e => rfl
  | ok r => rfl

/-- Witness for C2 on the example URL of the field docstring. -/
theorem noParamURLField_strips_witness :
    (∀ c ∈ "https://example.com/path".toList, 32 < c.toNat) ∧
    (∀ c ∈ "query=1".toList, c ≠ '\t' ∧ c ≠ '\r' ∧ c ≠ '\n') ∧
    (∀ c ∈ "fragment".toList, c ≠ '\t' ∧ c ≠ '\r' ∧ c ≠ '\n') ∧
    '#' ∉ "https://example.com/path".toList ∧
    '?' ∉ "https://example.com/path".toList ∧
    '#' ∉ "query=1".toList ∧
    NoParamURLField.get_prep_value ("https://example.com/path".toList ++
        '?' :: ("query=1".toList ++ '#' :: "fragment".toList)) =
      NoParamURLField.get_prep_value "https://example.com/path".toList :=
  ⟨by decide, by decide, by decide, by decide, by decide, by decide,
   noParamURLField_strips_query_fragment _ _ _ (by decide) (by decide) (by decide)
     (by decide) (by decide) (by decide)⟩

/-- C2 counterexample: on the docstring example the result is NOT the input
without query and fragment, because the scheme is dropped too; the code
returns netloc + path. -/
theorem noParamURLField_deletes_scheme :
    NoParamURLField.get_prep_value "https://example.com/path?query=1#fragment".toList ≠
      some "https://example.com/path".toList ∧
    NoParamURLField.get_prep_value "https://example.com/path?query=1#fragment".toList =
      some "example.com/path".toList := by
  refine ⟨by decide, by decide⟩

/-- C3: UpperTextField.get_prep_value on the docstring inputs.  The first
docstring assertion holds, but get_prep_value(None) is the string NONE, not
None, contradicting the second docstring assertion: str(None) is the string
None and never raises, so the except branch cannot fire. -/
theorem upperTextField_eval :
    UpperTextField.get_prep_value (PyVal.pyStr " hello world ") = some "HELLO WORLD" ∧
    UpperTextField.get_prep_value PyVal.pyNone = some "NONE" ∧
    (some "NONE" : Option String) ≠ none := by
  refine ⟨by decide, by decide, by decide⟩

/-- C4: the management command submits exactly one SQL statement, of the
stated shape: TRUNCATE TABLE with the quoted table name, then RESTART
IDENTITY exactly when requested, then CASCADE exactly when requested, then a
semicolon. -/
theorem truncate_command_sql :
    ∀ (t : String) (ri c : Bool) (exec : String → Except String Unit),
      (TruncateTableCommand.handle t ri c exec).executed =
        ["TRUNCATE TABLE \"" ++ t ++ "\"" ++
          (if ri then " RESTART IDENTITY" else "") ++
          (if c then " CASCADE" else "") ++ ";"] := by
  intro t ri c exec
  exact handle_executed t ri c exec

/-- C5: when the cursor raises, handle writes the error line naming the table
to stderr and nothing to stdout; when it succeeds, handle writes the success
line to stdout and nothing to stderr.  handle is total in the model, so no
exception propagates out of it. -/
theorem truncate_command_handles_errors :
    ∀ (t : String) (ri c : Bool) (exec : String → Except String Unit) (e : String),
      ((exec ("TRUNCATE TABLE \"" ++ t ++ "\"" ++
          (if ri then " RESTART IDENTITY" else "") ++
          (if c then " CASCADE" else "") ++ ";") = .error e) →
        (TruncateTableCommand.handle t ri c exec).stderr =
          ["Error truncating table " ++ singleQuote ++ t ++ singleQuote ++ ": " ++ e] ∧
        (TruncateTableCommand.handle t ri c exec).stdout = []) ∧
      ((exec ("TRUNCATE TABLE \"" ++ t ++ "\"" ++
          (if ri then " RESTART IDENTITY" else "") ++
          (if c then " CASCADE" else "") ++ ";") = .ok ()) →
        (TruncateTableCommand.handle t ri c exec).stdout =
          ["Successfully truncated table \"" ++ t ++ "\" with options: RESTART IDENTITY=" ++
            pyBoolRepr ri ++ ", CASCADE=" ++ pyBoolRepr c ++ "."] ∧
        (TruncateTableCommand.handle t ri c exec).stderr = []) := by
  intro t ri c exec e
  cases ri <;> cases c <;>
    constructor <;> intro h <;>
      simp only [TruncateTableCommand.handle, ite_true, ite_false, Bool.false_eq_true,
        String.append_assoc] <;>
      simp_all [String.append_assoc]

/-- Witness for C5 with a failing and with a succeeding cursor. -/
theorem truncate_command_handles_errors_witness :
    (TruncateTableCommand.handle "users" false false
        (fun _ => Except.error "boom")).stderr =
      ["Error truncating table " ++ singleQuote ++ "users" ++ singleQuote ++ ": " ++ "boom"] ∧
    (TruncateTableCommand.handle "users" false false
        (fun _ => Except.error "boom")).stdout = [] ∧
    (TruncateTableCommand.handle "users" false false (fun _ => Except.ok ())).stdout =
      ["Successfully truncated table \"users\" with options: RESTART IDENTITY=" ++
        pyBoolRepr false ++ ", CASCADE=" ++ pyBoolRepr false ++ "."] ∧
    (TruncateTableCommand.handle "users" false false (fun _ => Except.ok ())).stderr = [] :=
  ⟨((truncate_command_handles_errors "users" false false _ "boom").1 rfl).1,
   ((truncate_command_handles_errors "users" false false _ "boom").1 rfl).2,
   ((truncate_command_handles_errors "users" false false _ "x").2 rfl).1,
   ((truncate_command_handles_errors "users" false false _ "x").2 rfl).2⟩

/-- C6: with created=True the handler appends exactly one new Profile row
linked to the saved user; with created=False any normally returning call
leaves the table unchanged, so no new row is created. -/
theorem create_user_profile_rows :
    ∀ (db : List Profile) (uid : Nat),
      (create_user_profile db uid true = .ok (db ++ [Profile.mk uid])) ∧
      ((db ++ [Profile.mk uid]).countP (fun p => p.user == uid) =
        db.countP (fun p => p.user == uid) + 1) ∧
      ((db ++ [Profile.mk uid]).length = db.length + 1) ∧
      (∀ db2, create_user_profile db uid false = .ok db2 → db2 = db) := by
  intro db uid
  refine ⟨rfl, ?_, by simp, ?_⟩
  · simp [List.countP_append, List.countP_cons]
  · intro db2 h
    simp only [create_user_profile, if_false, Bool.false_eq_true, ite_false] at h
    cases hf : db.find? (fun p => p.user == uid) with
    | some p => rw [hf] at h; cases h; rfl
    | none => rw [hf] at h; cases h

/-- Witness for C6 on a one-row table. -/
theorem create_user_profile_rows_witness :
    create_user_profile [Profile.mk 1] 1 false = .ok [Profile.mk 1] ∧
    ([Profile.mk 1] : List Profile) = [Profile.mk 1] ∧
    create_user_profile [Profile.mk 1] 1 true = .ok ([Profile.mk 1] ++ [Profile.mk 1]) :=
  ⟨by decide,
   (create_user_profile_rows [Profile.mk 1] 1).2.2.2 [Profile.mk 1] (by decide),
   (create_user_profile_rows [Profile.mk 1] 1).1⟩

/-- C7: both progress percentages always return a value (the
ZeroDivisionError branch is unreachable): 0 when the total is 0, and
round((done/total)*100, 2) otherwise. -/
theorem progress_percentage_total :
    ∀ (p t : ℕ),
      ((DataImportProgress.get_progress_percentage p t).isSome = true ∧
       (DataExtractProgress.get_progress_percentage p t).isSome = true) ∧
      (t = 0 → DataImportProgress.get_progress_percentage p t = some 0 ∧
               DataExtractProgress.get_progress_percentage p t = some 0) ∧
      (t ≠ 0 → DataImportProgress.get_progress_percentage p t =
                  some (pyRound2 ((p : ℚ) / (t : ℚ) * 100)) ∧
               DataExtractProgress.get_progress_percentage p t =
                  some (pyRound2 ((p : ℚ) / (t : ℚ) * 100))) := by
  intro p t
  by_cases h : t = 0
  · subst h
    refine ⟨⟨rfl, rfl⟩, fun _ => ⟨rfl, rfl⟩, fun hc => absurd rfl hc⟩
  · have ht : (t : ℚ) ≠ 0 := by exact_mod_cast h
    refine ⟨⟨?_, ?_⟩, fun hc => absurd hc h, fun _ => ⟨?_, ?_⟩⟩ <;>
      simp [DataImportProgress.get_progress_percentage,
        DataExtractProgress.get_progress_percentage, pyTrueDiv, h, ht]

/-- Witness for C7 at total 0 and at the docstring example 50 of 200. -/
theorem progress_percentage_witness :
    DataImportProgress.get_progress_percentage 7 0 = some 0 ∧
    DataImportProgress.get_progress_percentage 50 200 =
      some (pyRound2 ((50 : ℚ) / (200 : ℚ) * 100)) :=
  ⟨((progress_percentage_total 7 0).2.1 rfl).1,
   ((progress_percentage_total 50 200).2.2 (by decide)).1⟩

/-- C8: for a parseable value, validate raises its ValidationError (before any
delegation to the parent validate, hence for every parent outcome) exactly
when the value is non-empty and the parse lacks a netloc or lacks a path;
the empty (falsy) value never triggers it. -/
theorem noParamURLField_validate_iff :
    ∀ (v : List Char) (r : ParseResult),
      urlparse v = .ok r →
      ((v ≠ [] ∧ (r.netloc = [] ∨ r.path = [])) ↔
        ∀ sup : Except FieldError Unit,
          NoParamURLField.validate v sup =
            .error (.validationError "URL must contain both domain and path")) := by
  intro v r hp
  constructor
  · rintro ⟨hne, hcond⟩ sup
    simp only [NoParamURLField.validate, if_pos hne, hp]
    rw [if_pos hcond]
  · intro h
    by_cases hv : v = []
    · exfalso
      have h1 := h (.ok ())
      rw [hv] at h1
      simp [NoParamURLField.validate] at h1
    · refine ⟨hv, ?_⟩
      by_cases hc : r.netloc = [] ∨ r.path = []
      · exact hc
      · exfalso
        have h1 := h (.ok ())
        simp only [NoParamURLField.validate, if_pos hv, hp, if_neg hc] at h1
        cases h1

/-- Witness for C8 on a schemeless URL, whose parse has an empty netloc. -/
theorem noParamURLField_validate_witness :
    urlparse "example.com".toList =
      .ok (ParseResult.mk [] [] "example.com".toList [] [] []) ∧
    (("example.com".toList ≠ [] ∧
      ((ParseResult.mk [] [] "example.com".toList [] [] []).netloc = [] ∨
       (ParseResult.mk [] [] "example.com".toList [] [] []).path = [])) ↔
      ∀ sup : Except FieldError Unit,
        NoParamURLField.validate "example.com".toList sup =
          .error (.validationError "URL must contain both domain and path")) :=
  ⟨by decide, noParamURLField_validate_iff _ _ (by decide)⟩

/-- C9 counterexample: for the table name restart_identity with no options,
the runscript treats the table name itself as the restart_identity flag and
builds a different SQL string than the management command. -/
theorem script_vs_command_query_differ :
    (ScriptTruncateTable.run (fun _ => .ok ()) ["restart_identity"]).executed =
      ["TRUNCATE TABLE \"restart_identity\" RESTART IDENTITY;"] ∧
    (TruncateTableCommand.handle "restart_identity" false false (fun _ => .ok ())).executed =
      ["TRUNCATE TABLE \"restart_identity\";"] ∧
    ("TRUNCATE TABLE \"restart_identity\" RESTART IDENTITY;" : String) ≠
      "TRUNCATE TABLE \"restart_identity\";" := by
  refine ⟨by decide, by decide, by decide⟩

/-- C9 (amended): for every table name other than the two option keywords,
the runscript builds character for character the same SQL string as the
management command given the same options. -/
theorem script_matches_command_outside_keywords :
    ∀ (t : String) (ri c : Bool) (exec : String → Except String Unit),
      t ≠ "restart_identity" → t ≠ "cascade" →
      (ScriptTruncateTable.run exec (encodeScriptArgs t ri c)).executed =
        (TruncateTableCommand.handle t ri c exec).executed := by
  intro t ri c exec h1 h2
  have hri : ((t :: ((if ri then ["restart_identity"] else []) ++
      (if c then ["cascade"] else []))).contains "restart_identity") = ri := by
    rw [contains_cons_of_ne (Ne.symm h1)]
    cases ri <;> cases c <;> decide
  have hc : ((t :: ((if ri then ["restart_identity"] else []) ++
      (if c then ["cascade"] else []))).contains "cascade") = c := by
    rw [contains_cons_of_ne (Ne.symm h2)]
    cases ri <;> cases c <;> decide
  rw [show encodeScriptArgs t ri c = t :: ((if ri then ["restart_identity"] else []) ++
      (if c then ["cascade"] else [])) from rfl]
  rw [run_executed, handle_executed, hri, hc]

/-- Witness for C9 at the table users with both options on. -/
theorem script_matches_command_witness :
    ("users" : String) ≠ "restart_identity" ∧ ("users" : String) ≠ "cascade" ∧
    (ScriptTruncateTable.run (fun _ => Except.ok ())
        (encodeScriptArgs "users" true true)).executed =
      (TruncateTableCommand.handle "users" true true (fun _ => Except.ok ())).executed :=
  ⟨by decide, by decide,
   script_matches_command_outside_keywords "users" true true _ (by decide) (by decide)⟩

/-- C10: get_label returns a label exactly when is_valid accepts the value;
equivalently the domain of the get_labels mapping is the value set of
get_values. -/
theorem choices_label_iff_valid :
    ∀ (choices : List (String × String)) (v : String),
      ((ChoicesMixin.get_label choices v).isSome = true ↔
        ChoicesMixin.is_valid choices v = true) ∧
      (ChoicesMixin.get_labels choices v ≠ none ↔
        v ∈ ChoicesMixin.get_values choices) := by
  intro choices v
  have key : (ChoicesMixin.get_labels choices v).isSome = true ↔
      v ∈ ChoicesMixin.get_values choices := by
    simp [ChoicesMixin.get_labels, ChoicesMixin.get_values, List.find?_isSome, beq_iff_eq]
  have hv : ChoicesMixin.is_valid choices v = true ↔ v ∈ ChoicesMixin.get_values choices := by
    unfold ChoicesMixin.is_valid
    exact ⟨fun h => List.elem_iff.mp h, fun h => List.elem_iff.mpr h⟩
  exact ⟨key.trans hv.symm, (Option.ne_none_iff_isSome).trans key⟩
